import Mathlib

/-
Verification of the BatchSched scheduling engine.

This file is a shallow embedding of the core of the repository:
`src/scheduler.js` (job pool, expiry filter, policy sorter, selector,
metrics, day orchestrator) and the simulation driver `simulation.js`
(random arrivals, single/multi-day simulation, strategy comparison).

Modelling conventions:
* JavaScript numbers are modelled as `ℚ` at the admission boundary
  (`addJob` receives arbitrary numeric `compute`/`deadline`); after
  admission `compute` and `deadline` are integers because `addJob`
  stores them through `Math.round`, so stored jobs use `ℤ` fields.
  Day indices are integers (`ℤ`) throughout, as in every caller.
* `Math.round(x)` rounds half toward positive infinity, i.e. it is
  `⌊x + 1/2⌋`; `jsRound` below implements this on `ℚ` by integer
  floor division and `jsRound_eq_floor` proves the identity.
* The mutable module-level `jobPool`/`jobIdCounter` globals are an
  explicit `PoolState` threaded through every operation; a thrown
  exception is an `Except.error` result that still carries the state
  the globals hold at the moment of the throw.
* `Math.random()` is modelled by a stream of raw naturals (`Rng`);
  `Math.floor(Math.random() * k)` is one draw reduced modulo `k`,
  which ranges over exactly 0..k-1 as the raw value varies.
* `Array.prototype.sort` with a comparator is (per the ECMAScript
  spec) a stable sort with respect to `comparator a b ≤ 0`; it is
  modelled by `List.insertionSort`, which is a stable sort.
-/

namespace BatchSched

/-- A job as stored by `addJob` in scheduler.js: `id` from the monotonic
counter, `compute`/`deadline` as stored through `Math.round` (hence
integers), `addedDay` the day the job entered the pool. -/
structure Job where
  id : ℕ
  compute : ℤ
  deadline : ℤ
  addedDay : ℤ
deriving DecidableEq

/-- The module-level mutable state of scheduler.js: the `jobPool` array
(in insertion order) and the monotonic `jobIdCounter`. -/
structure PoolState where
  jobPool : List Job
  jobIdCounter : ℕ
deriving DecidableEq

/-- The errors thrown by the engine:
`nonPositiveCompute` = "Compute units must be positive.",
`pastDeadline` = "Deadline cannot be in the past.",
`unknownStrategy s` = `Unknown strategy: "s"`. -/
inductive SchedError where
  | nonPositiveCompute
  | pastDeadline
  | unknownStrategy (strategy : String)
deriving DecidableEq

deriving instance DecidableEq for Except

/-- JavaScript `Math.round`: round half toward positive infinity,
`⌊q + 1/2⌋`, computed by integer floor division on numerator and
denominator so that it evaluates by kernel reduction
(see `jsRound_eq_floor`). -/
def jsRound (q : ℚ) : ℤ :=
  (2 * q.num + q.den) / (2 * (q.den : ℤ))

/-- `resetJobPool` from scheduler.js: empty the pool, restart the id
counter at 1 (the state argument models the overwritten globals). -/
def resetJobPool (_s : PoolState) : PoolState :=
  { jobPool := [], jobIdCounter := 1 }

/-- `getJobPool` from scheduler.js: read-only snapshot of the pool. -/
def getJobPool (s : PoolState) : List Job :=
  s.jobPool

/-- `addJob` from scheduler.js. Validation (`compute <= 0`,
`deadline < today`) happens on the raw inputs, before `Math.round` and
before the id counter is touched; on success the job is appended to
the pool and the counter is post-incremented. -/
def addJob (s : PoolState) (compute deadline : ℚ) (today : ℤ) :
    PoolState × Except SchedError Job :=
  if compute ≤ 0 then (s, .error .nonPositiveCompute)
  else if deadline < (today : ℚ) then (s, .error .pastDeadline)
  else
    let job : Job :=
      { id := s.jobIdCounter
        compute := jsRound compute
        deadline := jsRound deadline
        addedDay := today }
    ({ jobPool := s.jobPool ++ [job], jobIdCounter := s.jobIdCounter + 1 },
     .ok job)

/-- The ids handed out by a sequence of `addJob` calls, in call order,
keeping only the successful admissions (failed calls throw and admit
nothing). Each request is a `(compute, deadline, today)` triple. -/
def admittedIds (s : PoolState) : List (ℚ × ℚ × ℤ) → List ℕ
  | [] => []
  | (c, d, t) :: rest =>
    let r := addJob s c d t
    match r.2 with
    | .ok j => j.id :: admittedIds r.1 rest
    | .error _ => admittedIds r.1 rest

/-- `removeExpiredJobs` from scheduler.js: both filters read the pool as
it was on entry; the pool is then reassigned to the still-valid jobs.
Returns (new state, remaining snapshot, expired). -/
def removeExpiredJobs (s : PoolState) (today : ℤ) :
    PoolState × List Job × List Job :=
  let expired := s.jobPool.filter (fun j => decide (j.deadline < today))
  let remaining := s.jobPool.filter (fun j => decide (today ≤ j.deadline))
  ({ jobPool := remaining, jobIdCounter := s.jobIdCounter },
   remaining, expired)

/-- The 'edf' comparator of `sortJobs`
(`a.deadline - b.deadline`, tie-break `a.compute - b.compute`),
as the preorder "comparator result ≤ 0". -/
def edfLe (a b : Job) : Prop :=
  (if a.deadline ≠ b.deadline then a.deadline - b.deadline
   else a.compute - b.compute) ≤ 0

instance : DecidableRel edfLe := fun a b =>
  inferInstanceAs (Decidable
    ((if a.deadline ≠ b.deadline then a.deadline - b.deadline
      else a.compute - b.compute) ≤ 0))

/-- The 'lcf' comparator of `sortJobs`
(`b.compute - a.compute`, tie-break `a.deadline - b.deadline`),
as the preorder "comparator result ≤ 0". -/
def lcfLe (a b : Job) : Prop :=
  (if b.compute ≠ a.compute then b.compute - a.compute
   else a.deadline - b.deadline) ≤ 0

instance : DecidableRel lcfLe := fun a b =>
  inferInstanceAs (Decidable
    ((if b.compute ≠ a.compute then b.compute - a.compute
      else a.deadline - b.deadline) ≤ 0))

/-- Swap positions `i` and `j` of a list (the ES6
`[copy[i], copy[j]] = [copy[j], copy[i]]` step). Out-of-range indices
leave the list unchanged (never happens in the shuffle). -/
def listSwap {α : Type} (l : List α) (i j : ℕ) : List α :=
  match l[i]?, l[j]? with
  | some a, some b => (l.set i b).set j a
  | _, _ => l

/-- A source of uniform random integers: a stream of raw naturals and a
read position. -/
structure Rng where
  stream : ℕ → ℕ
  pos : ℕ

/-- One call `Math.floor(Math.random() * k)`: an integer in `[0, k-1]`
(the raw stream value reduced mod `k`), advancing the stream. -/
def Rng.draw (r : Rng) (k : ℕ) : ℕ × Rng :=
  (r.stream r.pos % k, { stream := r.stream, pos := r.pos + 1 })

/-- The Fisher-Yates loop of `sortJobs`' 'random' case: for `i` from
`length - 1` down to `1`, draw `j` uniform in `[0, i]` and swap
positions `i` and `j`. -/
def fyLoop {α : Type} (l : List α) (rng : Rng) : ℕ → List α × Rng
  | 0 => (l, rng)
  | i + 1 =>
    let d := rng.draw (i + 2)
    fyLoop (listSwap l (i + 1) d.1) d.2 i

/-- The full Fisher-Yates shuffle on a copy of the input. -/
def fisherYates {α : Type} (l : List α) (rng : Rng) : List α × Rng :=
  fyLoop l rng (l.length - 1)

/-- The strategy-name string literals used across the engine. -/
def edfName : String := "edf"

def lcfName : String := "lcf"

def randomName : String := "random"

/-- `sortJobs` from scheduler.js: a new sorted copy of the input under
the named strategy ('edf' and 'lcf' are stable comparator sorts,
'random' is a Fisher-Yates shuffle), or a thrown `Unknown strategy`
error for any other name. Only the 'random' case consumes randomness. -/
def sortJobs (jobs : List Job) (strategy : String) (rng : Rng) :
    Except SchedError (List Job × Rng) :=
  if strategy = edfName then
    .ok (List.insertionSort edfLe jobs, rng)
  else if strategy = lcfName then
    .ok (List.insertionSort lcfLe jobs, rng)
  else if strategy = randomName then
    .ok (fisherYates jobs rng)
  else
    .error (.unknownStrategy strategy)

/-- `selectJobs` from scheduler.js: `sortedJobs.slice(0, Math.max(0, N))`. -/
def selectJobs (sortedJobs : List Job) (N : ℤ) : List Job :=
  sortedJobs.take (max 0 N).toNat

/-- `getRemainingJobs` from scheduler.js: the pool minus the selected
ids. -/
def getRemainingJobs (all selected : List Job) : List Job :=
  all.filter (fun j => !(decide (j.id ∈ selected.map Job.id)))

/-- `calculateTotalCompute` from scheduler.js: left fold of `+` over the
compute units, starting from 0 (`Array.prototype.reduce`). -/
def calculateTotalCompute (jobs : List Job) : ℤ :=
  jobs.foldl (fun acc j => acc + j.compute) 0

/-- `calculateBacklog` from scheduler.js: the number of pending jobs. -/
def calculateBacklog (jobs : List Job) : ℕ :=
  jobs.length

/-- `calculateLoadVariance` from scheduler.js: 0 for fewer than two data
points, otherwise the population variance of the history (mean and
sum-of-squared-differences both divided by `n`). -/
def calculateLoadVariance (history : List ℚ) : ℚ :=
  if history.length < 2 then 0
  else
    let mean := history.foldl (· + ·) 0 / (history.length : ℚ)
    let sqDiffs := history.map (fun v => (v - mean) ^ 2)
    sqDiffs.foldl (· + ·) 0 / (history.length : ℚ)

/-- Modelled from the spec (section 4.5): population variance,
`mean = Σhᵢ/n`, `variance = Σ(hᵢ−mean)²/n`. Used to compare
`calculateLoadVariance` against the spec's formula. -/
def popVariance (history : List ℚ) : ℚ :=
  (history.map
    (fun v => (v - history.sum / (history.length : ℚ)) ^ 2)).sum /
    (history.length : ℚ)

/-- The `DayResult` record returned by `runScheduler`. -/
structure DayResult where
  selected : List Job
  remaining : List Job
  expired : List Job
  totalCompute : ℤ
  backlogSize : ℕ
  variance : ℚ
  day : ℤ
  strategy : String
deriving DecidableEq

/-- `runScheduler` from scheduler.js: expire, sort, select, remove the
selected ids from the pool, compute metrics. The expiry step mutates
the pool before the sort runs, so an unknown-strategy throw leaves the
pool in its post-expiry state. -/
def runScheduler (s : PoolState) (today N : ℤ) (strategy : String)
    (computeHistory : List ℚ) (rng : Rng) :
    PoolState × Rng × Except SchedError DayResult :=
  let er := removeExpiredJobs s today
  match sortJobs er.1.jobPool strategy rng with
  | .error e => (er.1, rng, .error e)
  | .ok (sorted, rng2) =>
    let selected := selectJobs sorted N
    let selectedIds := selected.map Job.id
    let newPool := er.1.jobPool.filter
      (fun j => !(decide (j.id ∈ selectedIds)))
    let totalCompute := calculateTotalCompute selected
    let updatedHistory := computeHistory ++ [(totalCompute : ℚ)]
    ({ jobPool := newPool, jobIdCounter := er.1.jobIdCounter }, rng2,
     .ok { selected := selected
           remaining := newPool
           expired := er.2.2
           totalCompute := totalCompute
           backlogSize := calculateBacklog newPool
           variance := calculateLoadVariance updatedHistory
           day := today
           strategy := strategy })

/-- The simulation-scoped state of simulation.js: the scheduler globals
plus the `_computeHistory` sequence. -/
structure SimState where
  pool : PoolState
  history : List ℚ

/-- `generateRandomJobs` from simulation.js: `count` draws of
`compute ∈ [1, maxCompute]` and `deadlineOffset ∈ [0, maxOffset-1]`,
each attempted through `addJob`; a failed admission is skipped and the
loop continues. Both random draws of an iteration happen before the
admission attempt. Returns (pool, rng, created jobs in order). -/
def generateRandomJobs (s : PoolState) (rng : Rng) (count : ℕ)
    (today : ℤ) (maxOffset maxCompute : ℕ) :
    PoolState × Rng × List Job :=
  match count with
  | 0 => (s, rng, [])
  | n + 1 =>
    let d1 := rng.draw maxCompute
    let computeUnits := d1.1 + 1
    let d2 := d1.2.draw maxOffset
    let deadline := today + (d2.1 : ℤ)
    let a := addJob s (computeUnits : ℚ) (deadline : ℚ) today
    let created : List Job := match a.2 with
      | .ok j => [j]
      | .error _ => []
    let rest := generateRandomJobs a.1 d2.2 n today maxOffset maxCompute
    (rest.1, rest.2.1, created ++ rest.2.2)

/-- The arrival-count computation of `simulateDay`:
`incomingCount + Math.floor(Math.random() * 4) - 1`, floored at 1
(the code comment calls this "±2 jitter"). -/
def simArrivalCount (incomingCount : ℤ) (rng : Rng) : ℕ × Rng :=
  let d := rng.draw 4
  ((max 1 (incomingCount + (d.1 : ℤ) - 1)).toNat, d.2)

/-- The per-day record returned by `simulateDay`:
`{ ...result, incoming }`. -/
structure SimDayResult where
  result : DayResult
  incoming : List Job
deriving DecidableEq

/-- `simulateDay` from simulation.js: draw the jittered arrival count,
generate that many arrivals (defaults `maxOffset = 7`,
`maxCompute = 20`), run the scheduler against the shared history, then
append the day's total to the history. A scheduler throw propagates
and the history is not extended. -/
def simulateDay (st : SimState) (rng : Rng) (today N : ℤ)
    (strategy : String) (incomingCount : ℤ) :
    SimState × Rng × Except SchedError SimDayResult :=
  let a := simArrivalCount incomingCount rng
  let g := generateRandomJobs st.pool a.2 a.1 today 7 20
  match runScheduler g.1 today N strategy st.history g.2.1 with
  | (p2, rng2, .error e) =>
    ({ pool := p2, history := st.history }, rng2, .error e)
  | (p2, rng2, .ok result) =>
    ({ pool := p2, history := st.history ++ [(result.totalCompute : ℚ)] },
     rng2, .ok { result := result, incoming := g.2.2 })

/-- The `for (d = 1; d <= days; d++)` loop of `simulateMultipleDays`:
run `simulateDay` for `remaining` consecutive days starting at `day`,
collecting results in order; a throw aborts the loop. -/
def simLoop (st : SimState) (rng : Rng) (day : ℤ) (remaining : ℕ)
    (N : ℤ) (strategy : String) (jobsPerDay : ℤ) :
    SimState × Rng × Except SchedError (List SimDayResult) :=
  match remaining with
  | 0 => (st, rng, .ok [])
  | r + 1 =>
    match simulateDay st rng day N strategy jobsPerDay with
    | (st1, rng1, .error e) => (st1, rng1, .error e)
    | (st1, rng1, .ok dayRes) =>
      match simLoop st1 rng1 (day + 1) r N strategy jobsPerDay with
      | (st2, rng2, .error e) => (st2, rng2, .error e)
      | (st2, rng2, .ok rest) => (st2, rng2, .ok (dayRes :: rest))

/-- The clean-slate simulation state: empty pool, id counter 1, empty
compute history. -/
def initSimState : SimState :=
  { pool := { jobPool := [], jobIdCounter := 1 }, history := [] }

/-- `simulateMultipleDays` from simulation.js: reset the pool and the
compute history (discarding whatever state the caller had), then run
days 1..days in order. -/
def simulateMultipleDays (_st : SimState) (rng : Rng) (days : ℕ)
    (N : ℤ) (strategy : String) (jobsPerDay : ℤ) :
    SimState × Rng × Except SchedError (List SimDayResult) :=
  simLoop initSimState rng 1 days N strategy jobsPerDay

/-- `compareStrategies` from simulation.js: one `simulateMultipleDays`
run per policy name, in the fixed order edf, lcf, random, collected as
a key/value mapping. -/
def compareStrategies (st : SimState) (rng : Rng) (days : ℕ)
    (N jobsPerDay : ℤ) :
    SimState × Rng ×
      Except SchedError (List (String × List SimDayResult)) :=
  match simulateMultipleDays st rng days N edfName jobsPerDay with
  | (st1, rng1, .error e) => (st1, rng1, .error e)
  | (st1, rng1, .ok r1) =>
    match simulateMultipleDays st1 rng1 days N lcfName jobsPerDay with
    | (st2, rng2, .error e) => (st2, rng2, .error e)
    | (st2, rng2, .ok r2) =>
      match simulateMultipleDays st2 rng2 days N randomName jobsPerDay with
      | (st3, rng3, .error e) => (st3, rng3, .error e)
      | (st3, rng3, .ok r3) =>
        (st3, rng3, .ok [(edfName, r1), (lcfName, r2), (randomName, r3)])

/-- A deterministic random source used for concrete evaluations: the
all-zero stream. -/
def zeroRng : Rng :=
  { stream := fun _ => 0, pos := 0 }

/-- An unrecognized policy name used for concrete evaluations. -/
def badStrategyName : String := "fifo"

/-- The end-to-end fixture pool of spec section 8:
{(8,4), (15,5), (3,5), (10,7), (12,6), (5,8)} added on day 1. -/
def specJobs : List Job :=
  [⟨1, 8, 4, 1⟩, ⟨2, 15, 5, 1⟩, ⟨3, 3, 5, 1⟩,
   ⟨4, 10, 7, 1⟩, ⟨5, 12, 6, 1⟩, ⟨6, 5, 8, 1⟩]

/-- The fixture pool sorted under 'edf'. -/
def sortedFix : List Job :=
  [⟨1, 8, 4, 1⟩, ⟨3, 3, 5, 1⟩, ⟨2, 15, 5, 1⟩,
   ⟨5, 12, 6, 1⟩, ⟨4, 10, 7, 1⟩, ⟨6, 5, 8, 1⟩]

/-- The `DayResult` of running the fixture pool with `today = 5`,
`N = 3`, policy 'edf' (the end-to-end scenario of spec section 8). -/
def dayFix : DayResult :=
  { selected := [⟨3, 3, 5, 1⟩, ⟨2, 15, 5, 1⟩, ⟨5, 12, 6, 1⟩]
    remaining := [⟨4, 10, 7, 1⟩, ⟨6, 5, 8, 1⟩]
    expired := [⟨1, 8, 4, 1⟩]
    totalCompute := 30
    backlogSize := 2
    variance := 0
    day := 5
    strategy := edfName }

/-
Helper lemmas.
-/

/-- Case analysis for `addJob`: exact result in the success case and in
the two failure cases. -/
lemma addJob_spec (s : PoolState) (c d : ℚ) (t : ℤ) :
    (¬ c ≤ 0 → ¬ d < (t : ℚ) →
      addJob s c d t =
        ({ jobPool :=
             s.jobPool ++ [⟨s.jobIdCounter, jsRound c, jsRound d, t⟩],
           jobIdCounter := s.jobIdCounter + 1 },
         .ok ⟨s.jobIdCounter, jsRound c, jsRound d, t⟩))
    ∧ (c ≤ 0 → addJob s c d t = (s, .error .nonPositiveCompute))
    ∧ (¬ c ≤ 0 → d < (t : ℚ) →
        addJob s c d t = (s, .error .pastDeadline)) := by
  unfold addJob
  split_ifs with h1 h2 <;> simp_all

/-- A job appearing in `admittedIds` carries an id at least the counter
the sequence started from. -/
lemma admittedIds_ge (reqs : List (ℚ × ℚ × ℤ)) :
    ∀ (s : PoolState), ∀ i ∈ admittedIds s reqs, s.jobIdCounter ≤ i := by
  induction reqs with
  | nil => intro s i hi; simp [admittedIds] at hi
  | cons req rest ih =>
    intro s i hi
    obtain ⟨c, d, t⟩ := req
    simp only [admittedIds] at hi
    by_cases h1 : c ≤ 0
    · rw [(addJob_spec s c d t).2.1 h1] at hi
      exact ih s i hi
    · by_cases h2 : d < (t : ℚ)
      · rw [(addJob_spec s c d t).2.2 h1 h2] at hi
        exact ih s i hi
      · rw [(addJob_spec s c d t).1 h1 h2] at hi
        simp only [List.mem_cons] at hi
        rcases hi with hi | hi
        · omega
        · have := ih _ i hi
          dsimp only at this
          omega

/-- The ids of the successful admissions are strictly increasing. -/
lemma admittedIds_pairwise (reqs : List (ℚ × ℚ × ℤ)) :
    ∀ (s : PoolState),
      List.Pairwise (· < ·) (admittedIds s reqs) := by
  induction reqs with
  | nil => intro s; simp [admittedIds]
  | cons req rest ih =>
    intro s
    obtain ⟨c, d, t⟩ := req
    simp only [admittedIds]
    by_cases h1 : c ≤ 0
    · rw [(addJob_spec s c d t).2.1 h1]
      exact ih s
    · by_cases h2 : d < (t : ℚ)
      · rw [(addJob_spec s c d t).2.2 h1 h2]
        exact ih s
      · rw [(addJob_spec s c d t).1 h1 h2]
        refine List.Pairwise.cons ?_ (ih _)
        intro i hi
        have := admittedIds_ge rest _ i hi
        dsimp only at this ⊢
        omega

/-- The 'edf' preorder spelled out: deadline ascending, ties broken by
compute ascending. -/
lemma edfLe_iff (a b : Job) :
    edfLe a b ↔
      (a.deadline < b.deadline
        ∨ (a.deadline = b.deadline ∧ a.compute ≤ b.compute)) := by
  by_cases h : a.deadline = b.deadline
  · unfold edfLe
    rw [if_neg (by simp [h])]
    constructor <;> intro <;> omega
  · unfold edfLe
    rw [if_pos h]
    constructor <;> intro <;> omega

instance : IsTotal Job edfLe := ⟨by
  intro a b
  rw [edfLe_iff, edfLe_iff]
  omega⟩

instance : IsTrans Job edfLe := ⟨by
  intro a b c hab hbc
  rw [edfLe_iff] at hab hbc ⊢
  omega⟩

/-- Reinserting an overwritten element in front of a `set` is a
permutation of putting the new element in front instead. -/
lemma cons_set_perm {α : Type} :
    ∀ (t : List α) (k : ℕ) (a b : α),
      t[k]? = some b → (b :: t.set k a).Perm (a :: t) := by
  intro t
  induction t with
  | nil => intro k a b h; simp at h
  | cons c t ih =>
    intro k a b h
    cases k with
    | zero =>
      simp only [List.getElem?_cons_zero, Option.some.injEq] at h
      subst h
      simp only [List.set_cons_zero]
      exact List.Perm.swap _ _ _
    | succ k =>
      simp only [List.getElem?_cons_succ] at h
      simp only [List.set_cons_succ]
      exact (List.Perm.swap c b _).trans
        (((ih k a b h).cons c).trans (List.Perm.swap a c t))

/-- Exchanging two present elements by a double `set` permutes the
list. -/
lemma set_set_perm {α : Type} :
    ∀ (l : List α) (i j : ℕ) (a b : α),
      l[i]? = some a → l[j]? = some b →
      ((l.set i b).set j a).Perm l := by
  intro l
  induction l with
  | nil => intro i j a b h1 _; simp at h1
  | cons c t ih =>
    intro i j a b h1 h2
    cases i with
    | zero =>
      simp only [List.getElem?_cons_zero, Option.some.injEq] at h1
      subst h1
      cases j with
      | zero =>
        simp only [List.getElem?_cons_zero, Option.some.injEq] at h2
        subst h2
        simp only [List.set_cons_zero]
        exact List.Perm.refl _
      | succ k =>
        simp only [List.getElem?_cons_succ] at h2
        simp only [List.set_cons_zero, List.set_cons_succ]
        exact cons_set_perm t k c b h2
    | succ m =>
      simp only [List.getElem?_cons_succ] at h1
      cases j with
      | zero =>
        simp only [List.getElem?_cons_zero, Option.some.injEq] at h2
        subst h2
        simp only [List.set_cons_succ, List.set_cons_zero]
        exact cons_set_perm t m c a h1
      | succ k =>
        simp only [List.getElem?_cons_succ] at h1 h2
        simp only [List.set_cons_succ]
        exact (ih m k a b h1 h2).cons c

/-- A `listSwap` is a permutation. -/
lemma listSwap_perm {α : Type} (l : List α) (i j : ℕ) :
    (listSwap l i j).Perm l := by
  rcases h1 : l[i]? with - | a <;> rcases h2 : l[j]? with - | b <;>
    simp only [listSwap, h1, h2] <;>
    first
    | exact List.Perm.refl _
    | exact set_set_perm l i j a b h1 h2

/-- The Fisher-Yates loop permutes its input, for every random
outcome. -/
lemma fyLoop_perm {α : Type} :
    ∀ (n : ℕ) (l : List α) (rng : Rng), ((fyLoop l rng n).1).Perm l := by
  intro n
  induction n with
  | zero => intro l rng; exact List.Perm.refl _
  | succ i ih =>
    intro l rng
    simp only [fyLoop]
    exact (ih _ _).trans (listSwap_perm _ _ _)

/-- Whenever `sortJobs` succeeds, its output is a permutation of its
input — for all three policies and every random outcome. -/
lemma sortJobs_ok_perm (jobs : List Job) (strategy : String) (rng : Rng)
    (out : List Job) (rng2 : Rng)
    (h : sortJobs jobs strategy rng = .ok (out, rng2)) :
    out.Perm jobs := by
  unfold sortJobs at h
  split_ifs at h
  · simp only [Except.ok.injEq, Prod.mk.injEq] at h
    rw [← h.1]
    exact List.perm_insertionSort _ _
  · simp only [Except.ok.injEq, Prod.mk.injEq] at h
    rw [← h.1]
    exact List.perm_insertionSort _ _
  · simp only [Except.ok.injEq] at h
    have hout : out = (fisherYates jobs rng).1 := by rw [h]
    rw [hout]
    simp only [fisherYates]
    exact fyLoop_perm _ _ _

/-- Taking a prefix of a permutation of a nodup-id pool and then
filtering the taken ids out of the pool is again a permutation of the
pool. -/
lemma selected_remove_perm (P sorted : List Job) (n : ℕ)
    (hnd : (P.map Job.id).Nodup) (hperm : sorted.Perm P) :
    (sorted.take n ++
      P.filter
        (fun j => !(decide (j.id ∈ (sorted.take n).map Job.id)))).Perm
      P := by
  have hPnd : P.Nodup := List.Nodup.of_map Job.id hnd
  have hsortnd : sorted.Nodup := hperm.nodup_iff.mpr hPnd
  have hselsub : (sorted.take n).Sublist sorted := List.take_sublist n sorted
  have hselnd : (sorted.take n).Nodup := hselsub.nodup hsortnd
  have hfilnd :
      (P.filter
        (fun j => !(decide (j.id ∈ (sorted.take n).map Job.id)))).Nodup :=
    hPnd.filter _
  have hdisj : (sorted.take n).Disjoint
      (P.filter
        (fun j => !(decide (j.id ∈ (sorted.take n).map Job.id)))) := by
    intro x hx1 hx2
    have hxid : x.id ∈ (sorted.take n).map Job.id :=
      List.mem_map_of_mem Job.id hx1
    have h2 := (List.mem_filter.mp hx2).2
    simp only [Bool.not_eq_true', decide_eq_false_iff_not] at h2
    exact h2 hxid
  have hnd2 :
      ((sorted.take n) ++
        P.filter
          (fun j => !(decide (j.id ∈ (sorted.take n).map Job.id)))).Nodup :=
    hselnd.append hfilnd hdisj
  rw [List.perm_ext_iff_of_nodup hnd2 hPnd]
  intro a
  constructor
  · intro ha
    rcases List.mem_append.mp ha with h | h
    · exact hperm.mem_iff.mp (hselsub.subset h)
    · exact (List.mem_filter.mp h).1
  · intro ha
    by_cases hid : a.id ∈ (sorted.take n).map Job.id
    · rcases List.mem_map.mp hid with ⟨y, hy, hyid⟩
      have hyP : y ∈ P := hperm.mem_iff.mp (hselsub.subset hy)
      have hya : y = a := List.inj_on_of_nodup_map hnd hyP ha hyid
      exact List.mem_append.mpr (Or.inl (hya ▸ hy))
    · refine List.mem_append.mpr (Or.inr (List.mem_filter.mpr ⟨ha, ?_⟩))
      simp only [Bool.not_eq_true', decide_eq_false_iff_not]
      exact hid

/-
Claim theorems, C1 to C10, with their witnesses and counterexamples.
-/

/-- C4: for every pool with pairwise-distinct job ids, every day, batch
size, policy and random outcome, a successful `runScheduler` round
accounts for every pool job exactly once: the ids of
`selected ++ remaining ++ expired` are a permutation of the ids the
pool held before the call. -/
theorem runScheduler_roundTrip :
    ∀ (s : PoolState) (today N : ℤ) (strategy : String)
      (history : List ℚ) (rng : Rng) (s2 : PoolState) (rng2 : Rng)
      (result : DayResult),
      (s.jobPool.map Job.id).Nodup →
      runScheduler s today N strategy history rng = (s2, rng2, .ok result) →
      ((result.selected ++ result.remaining ++ result.expired).map
        Job.id).Perm (s.jobPool.map Job.id) := by
  intro s today N strategy history rng s2 rng2 result hnd heq
  simp only [runScheduler] at heq
  cases hs : sortJobs (removeExpiredJobs s today).1.jobPool strategy rng with
  | error e =>
    rw [hs] at heq
    simp at heq
  | ok pr =>
    obtain ⟨sorted, rngS⟩ := pr
    rw [hs] at heq
    simp only [Prod.mk.injEq, Except.ok.injEq] at heq
    obtain ⟨-, -, hres⟩ := heq
    subst hres
    dsimp only
    have hsubP : (removeExpiredJobs s today).1.jobPool.Sublist s.jobPool := by
      simp only [removeExpiredJobs]
      exact List.filter_sublist _
    have hndP : ((removeExpiredJobs s today).1.jobPool.map Job.id).Nodup :=
      (hsubP.map Job.id).nodup hnd
    have hperm : sorted.Perm (removeExpiredJobs s today).1.jobPool :=
      sortJobs_ok_perm _ _ _ _ _ hs
    have h1 := selected_remove_perm (removeExpiredJobs s today).1.jobPool
      sorted (max 0 N).toNat hndP hperm
    rw [show sorted.take (max 0 N).toNat = selectJobs sorted N from rfl] at h1
    have h2 : ((removeExpiredJobs s today).2.2 ++
        (removeExpiredJobs s today).1.jobPool).Perm s.jobPool := by
      simp only [removeExpiredJobs]
      have hpq : ∀ x ∈ s.jobPool,
          (decide (today ≤ x.deadline)) = !(decide (x.deadline < today)) := by
        intro x _
        rw [← decide_not, decide_eq_decide]
        exact not_lt.symm
      rw [List.filter_congr hpq]
      exact List.filter_append_perm _ _
    have h3 := (List.perm_append_comm).trans
      ((List.Perm.append_left (removeExpiredJobs s today).2.2 h1).trans h2)
    exact h3.map Job.id

/-- Witness for C4: the spec fixture pool, day 5, batch size 3, policy
'edf' — the six ids are exactly redistributed over selected, remaining
and expired. -/
theorem runScheduler_roundTrip_witness :
    ((dayFix.selected ++ dayFix.remaining ++ dayFix.expired).map
      Job.id).Perm ((specJobs : List Job).map Job.id) :=
  runScheduler_roundTrip { jobPool := specJobs, jobIdCounter := 7 } 5 3
    edfName [] zeroRng
    { jobPool := [⟨4, 10, 7, 1⟩, ⟨6, 5, 8, 1⟩], jobIdCounter := 7 }
    zeroRng dayFix (by decide) (by rfl)

/-- C2 (amended): an unrecognized policy name makes `runScheduler`
abort with the unknown-strategy error — no `DayResult` is produced and
there is no fallback to any policy — but the pool is left in its
post-expiry state (the expiry step runs before the sort throws), not
necessarily in its pre-call state. -/
theorem runScheduler_unknown_strategy_aborts :
    ∀ (s : PoolState) (today N : ℤ) (strategy : String)
      (history : List ℚ) (rng : Rng),
      strategy ≠ edfName → strategy ≠ lcfName → strategy ≠ randomName →
      runScheduler s today N strategy history rng =
        ((removeExpiredJobs s today).1, rng,
         .error (.unknownStrategy strategy))
      ∧ (removeExpiredJobs s today).1.jobPool =
          s.jobPool.filter (fun j => decide (today ≤ j.deadline)) := by
  intro s today N strategy history rng h1 h2 h3
  have hsort : sortJobs (removeExpiredJobs s today).1.jobPool strategy rng =
      .error (.unknownStrategy strategy) := by
    unfold sortJobs
    rw [if_neg h1, if_neg h2, if_neg h3]
  constructor
  · simp only [runScheduler, hsort]
  · rfl

/-- Witness for the amended C2 at a concrete input. -/
theorem runScheduler_unknown_strategy_aborts_witness :
    runScheduler { jobPool := [⟨1, 5, 1, 1⟩], jobIdCounter := 2 } 2 3
        badStrategyName [] zeroRng =
      ((removeExpiredJobs { jobPool := [⟨1, 5, 1, 1⟩], jobIdCounter := 2 } 2).1,
       zeroRng, .error (.unknownStrategy badStrategyName)) :=
  (runScheduler_unknown_strategy_aborts
      { jobPool := [⟨1, 5, 1, 1⟩], jobIdCounter := 2 } 2 3
      badStrategyName [] zeroRng (by decide) (by decide) (by decide)).1

/-- C2 counterexample: with a pool holding a job already past its
deadline, a day-2 `runScheduler` call under an unknown policy aborts
with the unknown-strategy error, yet the pool is NOT in the state it
had before the call — the expiry step already removed the job. -/
theorem runScheduler_unknown_strategy_not_atomic :
    (runScheduler { jobPool := [⟨1, 5, 1, 1⟩], jobIdCounter := 2 } 2 3
        badStrategyName [] zeroRng).2.2 =
      .error (.unknownStrategy badStrategyName)
    ∧ (runScheduler { jobPool := [⟨1, 5, 1, 1⟩], jobIdCounter := 2 } 2 3
        badStrategyName [] zeroRng).1.jobPool ≠ [⟨1, 5, 1, 1⟩] := by
  constructor <;> decide

/-- C6: under the 'edf' policy `sortJobs` returns (a new list that is)
a permutation of its input in which earlier deadlines come first and,
among equal deadlines, smaller compute comes first: every pair of
positions in order satisfies deadline-then-compute order. -/
theorem sortJobs_edf_ordering :
    ∀ (jobs : List Job) (rng : Rng) (out : List Job) (rng2 : Rng),
      sortJobs jobs edfName rng = .ok (out, rng2) →
      out.Perm jobs
      ∧ List.Pairwise (fun a b =>
          a.deadline < b.deadline
          ∨ (a.deadline = b.deadline ∧ a.compute ≤ b.compute)) out := by
  intro jobs rng out rng2 h
  unfold sortJobs at h
  rw [if_pos rfl] at h
  simp only [Except.ok.injEq, Prod.mk.injEq] at h
  obtain ⟨ho, -⟩ := h
  subst ho
  refine ⟨List.perm_insertionSort _ _, ?_⟩
  have hs := List.sorted_insertionSort edfLe jobs
  exact List.Pairwise.imp (fun hab => (edfLe_iff _ _).mp hab) hs

/-- Witness for C6: the spec fixture pool sorts under 'edf' into the
expected order. -/
theorem sortJobs_edf_ordering_witness :
    sortedFix.Perm specJobs
    ∧ List.Pairwise (fun a b =>
        a.deadline < b.deadline
        ∨ (a.deadline = b.deadline ∧ a.compute ≤ b.compute)) sortedFix :=
  sortJobs_edf_ordering specJobs zeroRng sortedFix zeroRng (by rfl)

/-- C7: `calculateLoadVariance` returns 0 on histories with fewer than
two entries and the population variance (divisor `n`, not `n-1`) on
longer ones, matching the spec's formula `Σ(hᵢ−mean)²/n` with
`mean = Σhᵢ/n`; in particular the two spec fixtures hold. -/
theorem calculateLoadVariance_population :
    (∀ h : List ℚ, h.length < 2 → calculateLoadVariance h = 0)
    ∧ (∀ h : List ℚ, 2 ≤ h.length →
        calculateLoadVariance h = popVariance h)
    ∧ calculateLoadVariance [2, 4, 4, 4, 5, 5, 7, 9] = 4
    ∧ calculateLoadVariance [5, 5, 5] = 0 := by
  have hgen : ∀ h : List ℚ, 2 ≤ h.length →
      calculateLoadVariance h = popVariance h := by
    intro h hl
    simp only [calculateLoadVariance, popVariance]
    rw [if_neg (by omega)]
    simp only [← List.sum_eq_foldl]
  refine ⟨?_, hgen, ?_, ?_⟩
  · intro h hl
    unfold calculateLoadVariance
    rw [if_pos hl]
  · rw [hgen _ (by norm_num)]
    unfold popVariance
    norm_num [List.sum_cons, List.map]
  · rw [hgen _ (by norm_num)]
    unfold popVariance
    norm_num [List.sum_cons, List.map]

/-- Witness for C7 at concrete inputs: a one-entry history has variance
0, and a two-entry history already follows the population formula. -/
theorem calculateLoadVariance_population_witness :
    calculateLoadVariance [5] = 0
    ∧ calculateLoadVariance [2, 4] = popVariance [2, 4] :=
  ⟨calculateLoadVariance_population.1 [5] (by decide),
   calculateLoadVariance_population.2.1 [2, 4] (by decide)⟩

/-- C1: the invariant "every stored job has `compute > 0`" fails on
non-integer input. `addJob` validates the raw `compute` before
rounding it, so `compute = 3/10` passes validation (`3/10 > 0`) and is
then stored as `Math.round(3/10) = 0`: the admission succeeds and the
pool holds a job with `compute = 0`, contradicting the documented
invariant that any violation is rejected and never stored. -/
theorem addJob_nonInteger_compute_bug :
    (addJob { jobPool := [], jobIdCounter := 1 } (mkRat 3 10) 5 1).2 =
      .ok ⟨1, 0, 5, 1⟩
    ∧ ((addJob { jobPool := [], jobIdCounter := 1 }
        (mkRat 3 10) 5 1).1.jobPool.map Job.compute) = [0] := by
  constructor <;> decide

/-- C3: the arrival-count jitter of `simulateDay` is not the claimed
±2. The code draws `Math.floor(Math.random()*4) - 1 ∈ {-1,0,1,2}`, so
for `baseArrivalCount = 5` the generated count is always in `[4, 7]`:
the value `3 = 5 - 2` claimed to be attainable is never produced, for
any outcome of the random source. -/
theorem simArrivalCount_jitter_bug :
    ∀ (rng : Rng),
      4 ≤ (simArrivalCount 5 rng).1
      ∧ (simArrivalCount 5 rng).1 ≤ 7
      ∧ (simArrivalCount 5 rng).1 ≠ 3 := by
  intro rng
  have h : rng.stream rng.pos % 4 < 4 := Nat.mod_lt _ (by omega)
  simp only [simArrivalCount, Rng.draw]
  omega

/-- C5: within one pool lifetime the ids handed out by successful
admissions are strictly increasing (hence pairwise distinct) in
admission order, whatever the interleaved failures; `resetJobPool`
empties the pool and restarts the counter at 1, so the first
successful admission after a reset receives id 1. -/
theorem jobIds_strictly_increasing_and_reset :
    ∀ (s : PoolState) (reqs : List (ℚ × ℚ × ℤ)),
      List.Pairwise (· < ·) (admittedIds s reqs)
      ∧ resetJobPool s = { jobPool := [], jobIdCounter := 1 }
      ∧ (∀ (c d : ℚ) (t : ℤ) (j : Job),
          (addJob (resetJobPool s) c d t).2 = .ok j → j.id = 1) := by
  intro s reqs
  refine ⟨admittedIds_pairwise reqs s, rfl, ?_⟩
  intro c d t j hj
  by_cases h1 : c ≤ 0
  · rw [(addJob_spec (resetJobPool s) c d t).2.1 h1] at hj
    simp at hj
  · by_cases h2 : d < (t : ℚ)
    · rw [(addJob_spec (resetJobPool s) c d t).2.2 h1 h2] at hj
      simp at hj
    · rw [(addJob_spec (resetJobPool s) c d t).1 h1 h2] at hj
      simp only [Except.ok.injEq] at hj
      rw [← hj]
      rfl

/-- Witness for C5 at a concrete input: the first admission after a
reset of a dirty pool receives id 1. -/
theorem jobIds_strictly_increasing_and_reset_witness :
    (⟨1, 2, 3, 1⟩ : Job).id = 1 :=
  (jobIds_strictly_increasing_and_reset
      { jobPool := [⟨7, 9, 9, 1⟩], jobIdCounter := 8 } []).2.2
    2 3 1 ⟨1, 2, 3, 1⟩ (by decide)

/-- C8: `removeExpiredJobs` partitions the pool by
`deadline < today` (expired) versus `deadline ≥ today` (remaining),
both parts in insertion order (sublists of the pool), mutates the pool
to the remaining part, and is idempotent: a second call with the same
`today` returns an empty expired set and leaves the state unchanged. -/
theorem removeExpiredJobs_idempotent :
    ∀ (s : PoolState) (today : ℤ),
      ((removeExpiredJobs s today).2.2 ++
        (removeExpiredJobs s today).1.jobPool).Perm s.jobPool
      ∧ (∀ j ∈ (removeExpiredJobs s today).2.2, j.deadline < today)
      ∧ (∀ j ∈ (removeExpiredJobs s today).1.jobPool, today ≤ j.deadline)
      ∧ (removeExpiredJobs s today).1.jobPool.Sublist s.jobPool
      ∧ (removeExpiredJobs s today).2.2.Sublist s.jobPool
      ∧ (removeExpiredJobs s today).2.1 = (removeExpiredJobs s today).1.jobPool
      ∧ (removeExpiredJobs (removeExpiredJobs s today).1 today).2.2 = []
      ∧ removeExpiredJobs (removeExpiredJobs s today).1 today =
          ((removeExpiredJobs s today).1,
           (removeExpiredJobs s today).1.jobPool, []) := by
  intro s today
  have hpq : ∀ x ∈ s.jobPool,
      (decide (today ≤ x.deadline)) = !(decide (x.deadline < today)) := by
    intro x _
    rw [← decide_not, decide_eq_decide]
    exact not_lt.symm
  have hsecond :
      (s.jobPool.filter (fun j => decide (today ≤ j.deadline))).filter
        (fun j => decide (j.deadline < today)) = [] := by
    rw [List.filter_eq_nil_iff]
    intro a ha
    have := (List.mem_filter.mp ha).2
    simp at this ⊢
    omega
  have hagain :
      (s.jobPool.filter (fun j => decide (today ≤ j.deadline))).filter
        (fun j => decide (today ≤ j.deadline)) =
        s.jobPool.filter (fun j => decide (today ≤ j.deadline)) := by
    rw [List.filter_filter]
    exact List.filter_congr (by intro x _; rw [Bool.and_self])
  refine ⟨?_, ?_, ?_, ?_, ?_, rfl, ?_, ?_⟩
  · simp only [removeExpiredJobs]
    rw [List.filter_congr hpq]
    exact List.filter_append_perm _ _
  · intro j hj
    simp only [removeExpiredJobs] at hj
    have := (List.mem_filter.mp hj).2
    simpa using this
  · intro j hj
    simp only [removeExpiredJobs] at hj
    have := (List.mem_filter.mp hj).2
    simpa using this
  · simp only [removeExpiredJobs]
    exact List.filter_sublist _
  · simp only [removeExpiredJobs]
    exact List.filter_sublist _
  · simp only [removeExpiredJobs]
    exact hsecond
  · simp only [removeExpiredJobs]
    rw [hsecond, hagain]

/-- Witness for C8 at a concrete input: the job with deadline 4 lands
in the expired set of a day-5 expiry pass. -/
theorem removeExpiredJobs_idempotent_witness :
    (⟨1, 8, 4, 1⟩ : Job).deadline < 5 :=
  (removeExpiredJobs_idempotent
      { jobPool := [⟨1, 8, 4, 1⟩, ⟨2, 5, 6, 1⟩], jobIdCounter := 3 } 5).2.1
    ⟨1, 8, 4, 1⟩ (by decide)

/-- C10: a failed admission (non-positive compute or past deadline)
leaves both the pool and the id counter untouched — validation happens
before id allocation — and any successful admission receives exactly
the current counter value as its id. -/
theorem addJob_failure_preserves_state :
    ∀ (s : PoolState) (c d : ℚ) (t : ℤ),
      (∀ e, (addJob s c d t).2 = .error e → (addJob s c d t).1 = s)
      ∧ (∀ j, (addJob s c d t).2 = .ok j → j.id = s.jobIdCounter) := by
  intro s c d t
  unfold addJob
  split_ifs <;> constructor <;> intro x hx <;> simp_all
  rw [← hx]

/-- Witness for C10 at a concrete input: the rejected admission of a
zero-compute job leaves the reset state unchanged. -/
theorem addJob_failure_preserves_state_witness :
    (addJob { jobPool := [], jobIdCounter := 1 } 0 5 1).1 =
      { jobPool := [], jobIdCounter := 1 } :=
  (addJob_failure_preserves_state
      { jobPool := [], jobIdCounter := 1 } 0 5 1).1
    SchedError.nonPositiveCompute (by decide)

/-- Sorting under any of the three recognized policy names succeeds. -/
lemma sortJobs_known_ok (jobs : List Job) (rng : Rng) (strategy : String)
    (h : strategy = edfName ∨ strategy = lcfName ∨ strategy = randomName) :
    ∃ pr, sortJobs jobs strategy rng = .ok pr := by
  rcases h with h | h | h <;> subst h <;> unfold sortJobs
  · rw [if_pos rfl]
    exact ⟨_, rfl⟩
  · rw [if_neg (by decide), if_pos rfl]
    exact ⟨_, rfl⟩
  · rw [if_neg (by decide), if_neg (by decide), if_pos rfl]
    exact ⟨_, rfl⟩

/-- A round under a recognized policy name always produces a
`DayResult` carrying the round's day number. -/
lemma runScheduler_known_ok (s : PoolState) (today N : ℤ)
    (strategy : String) (history : List ℚ) (rng : Rng)
    (h : strategy = edfName ∨ strategy = lcfName ∨ strategy = randomName) :
    ∃ s2 rng2 r, runScheduler s today N strategy history rng =
      (s2, rng2, .ok r) ∧ r.day = today := by
  simp only [runScheduler]
  obtain ⟨⟨sorted, rng2⟩, hs⟩ :=
    sortJobs_known_ok (removeExpiredJobs s today).1.jobPool rng strategy h
  rw [hs]
  exact ⟨_, _, _, rfl, rfl⟩

/-- A simulated day under a recognized policy name always produces a
result carrying the day number. -/
lemma simulateDay_known_ok (st : SimState) (rng : Rng) (today N : ℤ)
    (strategy : String) (jobsPerDay : ℤ)
    (h : strategy = edfName ∨ strategy = lcfName ∨ strategy = randomName) :
    ∃ st2 rng2 r, simulateDay st rng today N strategy jobsPerDay =
      (st2, rng2, .ok r) ∧ r.result.day = today := by
  simp only [simulateDay]
  obtain ⟨s2, rng2, dr, hrun, hday⟩ := runScheduler_known_ok
    (generateRandomJobs st.pool (simArrivalCount jobsPerDay rng).2
      (simArrivalCount jobsPerDay rng).1 today 7 20).1 today N strategy
    st.history
    (generateRandomJobs st.pool (simArrivalCount jobsPerDay rng).2
      (simArrivalCount jobsPerDay rng).1 today 7 20).2.1 h
  rw [hrun]
  exact ⟨_, _, _, rfl, hday⟩

/-- The multi-day loop under a recognized policy name returns one
result per day, with consecutive day numbers starting at `day`. -/
lemma simLoop_known_ok :
    ∀ (remaining : ℕ) (st : SimState) (rng : Rng) (day N : ℤ)
      (strategy : String) (jobsPerDay : ℤ),
      (strategy = edfName ∨ strategy = lcfName ∨ strategy = randomName) →
      ∃ st2 rng2 results,
        simLoop st rng day remaining N strategy jobsPerDay =
          (st2, rng2, .ok results)
        ∧ results.length = remaining
        ∧ ∀ (i : ℕ) (hi : i < results.length),
            ((results.get ⟨i, hi⟩).result.day = day + (i : ℤ)) := by
  intro remaining
  induction remaining with
  | zero =>
    intro st rng day N strategy jobsPerDay _
    exact ⟨st, rng, [], rfl, rfl, fun i hi => absurd hi (by simp)⟩
  | succ r ih =>
    intro st rng day N strategy jobsPerDay h
    obtain ⟨st1, rng1, dres, hday1, hd⟩ :=
      simulateDay_known_ok st rng day N strategy jobsPerDay h
    obtain ⟨st2, rng2, results, hloop, hlen, hdays2⟩ :=
      ih st1 rng1 (day + 1) N strategy jobsPerDay h
    refine ⟨st2, rng2, dres :: results, ?_, by simp [hlen], ?_⟩
    · simp only [simLoop, hday1, hloop]
    · intro i hi
      cases i with
      | zero => simpa using hd
      | succ k =>
        have hk : k < results.length := by
          simp only [List.length_cons] at hi
          omega
        have hstep := hdays2 k hk
        rw [List.get_cons_succ, hstep]
        push_cast
        ring

/-- C9: `compareStrategies` returns a mapping with exactly three
entries keyed by the three policy names (in the order edf, lcf,
random), each an ordered sequence of exactly `days` results with day
numbers 1..days in order; and since every per-policy run starts from
the reset pool and history, the outcome is independent of whatever
simulation state the caller held — no run observes another run's
jobs. -/
theorem compareStrategies_three_runs :
    ∀ (st : SimState) (rng : Rng) (days : ℕ) (N jobsPerDay : ℤ),
      1 ≤ days →
      (∃ st3 rng3 comp,
        compareStrategies st rng days N jobsPerDay = (st3, rng3, .ok comp)
        ∧ comp.map Prod.fst = [edfName, lcfName, randomName]
        ∧ ∀ pr ∈ comp, pr.2.length = days
            ∧ ∀ (i : ℕ) (hi : i < pr.2.length),
                ((pr.2.get ⟨i, hi⟩).result.day = 1 + (i : ℤ)))
      ∧ ∀ st2 : SimState,
          compareStrategies st2 rng days N jobsPerDay =
            compareStrategies st rng days N jobsPerDay := by
  intro st rng days N jobsPerDay _hdays
  constructor
  · obtain ⟨stA, rngA, rA, hA, hlenA, hdayA⟩ :=
      simLoop_known_ok days initSimState rng 1 N edfName jobsPerDay
        (Or.inl rfl)
    obtain ⟨stB, rngB, rB, hB, hlenB, hdayB⟩ :=
      simLoop_known_ok days initSimState rngA 1 N lcfName jobsPerDay
        (Or.inr (Or.inl rfl))
    obtain ⟨stC, rngC, rC, hC, hlenC, hdayC⟩ :=
      simLoop_known_ok days initSimState rngB 1 N randomName jobsPerDay
        (Or.inr (Or.inr rfl))
    refine ⟨stC, rngC,
      [(edfName, rA), (lcfName, rB), (randomName, rC)], ?_, rfl, ?_⟩
    · simp only [compareStrategies, simulateMultipleDays, hA, hB, hC]
    · intro pr hpr
      simp only [List.mem_cons, List.not_mem_nil, or_false] at hpr
      rcases hpr with h | h | h <;> subst h <;> dsimp only
      · exact ⟨hlenA, fun i hi => hdayA i hi⟩
      · exact ⟨hlenB, fun i hi => hdayB i hi⟩
      · exact ⟨hlenC, fun i hi => hdayC i hi⟩
  · intro st2
    rfl

/-- Witness for C9 at a concrete input: a one-day comparison with
batch size 2 from the deterministic zero random source. -/
theorem compareStrategies_three_runs_witness :
    (∃ st3 rng3 comp,
      compareStrategies initSimState zeroRng 1 2 5 = (st3, rng3, .ok comp)
      ∧ comp.map Prod.fst = [edfName, lcfName, randomName]
      ∧ ∀ pr ∈ comp, pr.2.length = 1
          ∧ ∀ (i : ℕ) (hi : i < pr.2.length),
              ((pr.2.get ⟨i, hi⟩).result.day = 1 + (i : ℤ)))
    ∧ ∀ st2 : SimState,
        compareStrategies st2 zeroRng 1 2 5 =
          compareStrategies initSimState zeroRng 1 2 5 :=
  compareStrategies_three_runs initSimState zeroRng 1 2 5 (by decide)

end BatchSched
